import Mathlib

/-!
Verification of the slowproxy TCP throttling relay (main.go).

Conventions of the shallow embedding:
* Durations are counted in nanoseconds (the unit of Go's time.Duration) as
  integers.
* Go computes the expected transfer time for a chunk in 64-bit floating
  point: share := float64(transmitted) / float64(throughput), then
  time.Duration(share*1000.0) * time.Millisecond.  Converting the
  nonnegative float share*1000.0 to time.Duration truncates it to a whole
  number, so the expected delay is whole milliseconds.  We model this
  arithmetic with exact rationals and Int.floor; every concrete value used
  below is far below the range where float64 rounding could move the
  truncation across an integer.
* Payload bytes are opaque and modelled as naturals; each read and write
  system call outcome is made explicit through a small event alphabet.
-/

namespace SlowProxy

/-- Go main.go line 154: share := float64(transmitted) / float64(throughput). -/
def share (throughput transmitted : ℕ) : ℚ :=
  (transmitted : ℚ) / (throughput : ℚ)

/-- Go main.go line 157: expectedDelay := time.Duration(share*1000.0) *
time.Millisecond, in nanoseconds (time.Millisecond = 1000000 ns); the
float-to-Duration conversion truncates the nonnegative value, i.e. floors.
This is the exact-rational idealization of the float64 computation: at some
in-range int64 inputs (for example transmitted = 709617824418376 with
throughput = 1965700344649241) the float64 rounding of share and of
share*1000.0 crosses the next integer and the code obtains one millisecond
more than this floor.  On the domain the pump can reach — transmitted is a
read count bounded by the buffer size, which equals throughput, and a buffer
of 2^53 bytes is not allocatable — the divergence is one-sided: the float64
result is never below this rational floor, so every lower bound proved on
expectedDelayNs (and hence on delaySleepNs) also holds of the code, while
exact-value statements hold only of this idealization.  All concrete inputs
used below are small enough that the float64 computation agrees with the
rational one exactly. -/
def expectedDelayNs (throughput transmitted : ℕ) : ℤ :=
  ⌊share throughput transmitted * 1000⌋ * 1000000

/-- Go delay (main.go lines 152-163): sleep expectedDelay minus
transmissionDuration when transmissionDuration < expectedDelay, otherwise do
not sleep.  The result is the length of the sleep performed in nanoseconds
(0 when the function returns immediately). -/
def delaySleepNs (throughput transmitted : ℕ) (elapsedNs : ℤ) : ℤ :=
  if elapsedNs < expectedDelayNs throughput transmitted then
    expectedDelayNs throughput transmitted - elapsedNs
  else 0

theorem share_mul_1000_eq (throughput transmitted : ℕ) :
    share throughput transmitted * 1000 =
      ((1000 * transmitted : ℕ) : ℚ) / ((throughput : ℕ) : ℚ) := by
  unfold share
  push_cast
  ring

theorem expectedDelayNs_eq_div (throughput transmitted : ℕ) :
    expectedDelayNs throughput transmitted =
      ((1000 * transmitted) / throughput : ℕ) * 1000000 := by
  unfold expectedDelayNs
  rw [share_mul_1000_eq]
  have h2 : (0 : ℚ) ≤ ((1000 * transmitted : ℕ) : ℚ) / ((throughput : ℕ) : ℚ) :=
    div_nonneg (by positivity) (by positivity)
  rw [← Int.natCast_floor_eq_floor h2, Nat.floor_div_eq_div]

theorem expectedDelayNs_nonneg (throughput transmitted : ℕ) :
    0 ≤ expectedDelayNs throughput transmitted := by
  rw [expectedDelayNs_eq_div]
  positivity

/-- Outcome of the w.Write call of one slowCopy iteration (main.go line 111):
success, err == io.EOF or isBrokenPipe(err) (main.go line 112), or any other
error (main.go line 117). -/
inductive WriteRes
  | success
  | eofOrPipe
  | otherErr
deriving DecidableEq, Repr

/-- Outcome of one iteration of the slowCopy loop as seen at the r.Read call
(main.go line 98): either a successful read of data that together with the
following write took elapsedNs wall-clock nanoseconds, followed by a write
with outcome wres; or a read ending with io.EOF or a broken pipe (main.go
line 99); or a read failing with any other error (main.go line 104).  A
net.TCPConn read delivers data only with a nil error, so no data accompanies
the terminal read outcomes. -/
inductive IterEv
  | ok (data : List ℕ) (elapsedNs : ℕ) (wres : WriteRes)
  | readEOF
  | readErr
deriving DecidableEq, Repr

/-- Observable action slowCopy performs on its two streams: a successful
write of a chunk to w (main.go line 111), w.CloseWrite() (main.go line 101),
r.CloseRead() (main.go line 114), or the fatal path closing both streams
fully with w.Close(); r.Close() (main.go lines 106-107 and 119-120). -/
inductive Act
  | write (data : List ℕ)
  | wCloseWrite
  | rCloseRead
  | closeBoth
deriving DecidableEq, Repr

/-- Go slowCopy (main.go lines 94-126) as the sequence of stream actions it
performs when its reads and writes come out as the event list says.  A trace
without a terminating close action means the loop is still running (the
event list was exhausted while the pump blocks in its next read). -/
def slowCopyTrace : List IterEv → List Act
  | [] => []
  | IterEv.readEOF :: _ => [Act.wCloseWrite]
  | IterEv.readErr :: _ => [Act.closeBoth]
  | IterEv.ok d _ wres :: rest =>
    match wres with
    | WriteRes.success => Act.write d :: slowCopyTrace rest
    | WriteRes.eofOrPipe => [Act.rCloseRead]
    | WriteRes.otherErr => [Act.closeBoth]

/-- Wall-clock nanoseconds slowCopy spends on the given events: a successful
iteration costs its read/write elapsed time plus the sleep injected by
delay(throughput, size, time.Since(start)) (main.go line 124); an iteration
that terminates the loop costs its elapsed time and performs no delay call. -/
def slowCopyTimeNs (throughput : ℕ) : List IterEv → ℤ
  | [] => 0
  | IterEv.readEOF :: _ => 0
  | IterEv.readErr :: _ => 0
  | IterEv.ok d e wres :: rest =>
    match wres with
    | WriteRes.success =>
        (e : ℤ) + delaySleepNs throughput d.length (e : ℤ)
          + slowCopyTimeNs throughput rest
    | WriteRes.eofOrPipe => (e : ℤ)
    | WriteRes.otherErr => (e : ℤ)

/-- Total number of payload bytes among the write actions of a trace. -/
def writtenBytes : List Act → ℕ
  | [] => 0
  | Act.write d :: rest => d.length + writtenBytes rest
  | Act.wCloseWrite :: rest => writtenBytes rest
  | Act.rCloseRead :: rest => writtenBytes rest
  | Act.closeBoth :: rest => writtenBytes rest

/-- Number of write actions in a trace (chunks successfully forwarded). -/
def numWrites : List Act → ℕ
  | [] => 0
  | Act.write _ :: rest => 1 + numWrites rest
  | Act.wCloseWrite :: rest => numWrites rest
  | Act.rCloseRead :: rest => numWrites rest
  | Act.closeBoth :: rest => numWrites rest

/-- Event list of a run of chunk transfers that all succeed; each entry of
the list carries the chunk read and the elapsed read/write time. -/
def okEvents (chunks : List (List ℕ × ℕ)) : List IterEv :=
  chunks.map fun c => IterEv.ok c.1 c.2 WriteRes.success

/-- Write actions corresponding to a run of successful chunk transfers. -/
def writeActs (chunks : List (List ℕ × ℕ)) : List Act :=
  chunks.map fun c => Act.write c.1

theorem slowCopyTrace_okEvents_append (chunks : List (List ℕ × ℕ))
    (tail : List IterEv) :
    slowCopyTrace (okEvents chunks ++ tail) =
      writeActs chunks ++ slowCopyTrace tail := by
  induction chunks with
  | nil => rfl
  | cons c cs ih =>
      simpa [okEvents, writeActs, slowCopyTrace] using ih

theorem slowCopyTimeNs_okEvents_append (throughput : ℕ)
    (chunks : List (List ℕ × ℕ)) (tail : List IterEv) :
    slowCopyTimeNs throughput (okEvents chunks ++ tail) =
      (chunks.map fun c =>
        (c.2 : ℤ) + delaySleepNs throughput c.1.length (c.2 : ℤ)).sum
        + slowCopyTimeNs throughput tail := by
  induction chunks with
  | nil => simp [okEvents]
  | cons c cs ih =>
      simp [okEvents, slowCopyTimeNs] at *
      rw [ih]
      ring

theorem delaySleepNs_zero_transmitted (throughput : ℕ) (elapsedNs : ℤ)
    (he : 0 ≤ elapsedNs) :
    delaySleepNs throughput 0 elapsedNs = 0 := by
  have h0 : expectedDelayNs throughput 0 = 0 := by
    rw [expectedDelayNs_eq_div]
    simp
  rw [delaySleepNs, h0, if_neg (not_lt.2 he)]

/-- Claim C8: delay never sleeps a negative duration; transmitting 0 bytes
never causes a sleep; and a 0-byte chunk in the slowCopy loop is forwarded
as a normal (empty) write, is not treated as an error, and contributes no
sleep to the wall-clock time. -/
theorem delay_nonneg_and_zero_bytes_no_sleep (throughput transmitted : ℕ)
    (elapsedNs : ℤ) (ht : 0 < throughput) (he : 0 ≤ elapsedNs)
    (e0 : ℕ) (rest : List IterEv) :
    0 ≤ delaySleepNs throughput transmitted elapsedNs ∧
    delaySleepNs throughput 0 elapsedNs = 0 ∧
    slowCopyTrace (IterEv.ok [] e0 WriteRes.success :: rest) =
      Act.write [] :: slowCopyTrace rest ∧
    slowCopyTimeNs throughput (IterEv.ok [] e0 WriteRes.success :: rest) =
      (e0 : ℤ) + slowCopyTimeNs throughput rest := by
  refine ⟨?_, delaySleepNs_zero_transmitted throughput elapsedNs he, rfl, ?_⟩
  · rw [delaySleepNs]
    split
    · next h => omega
    · exact le_refl 0
  · have hz : delaySleepNs throughput 0 (e0 : ℤ) = 0 :=
      delaySleepNs_zero_transmitted throughput (e0 : ℤ) (Int.natCast_nonneg e0)
    simp [slowCopyTimeNs, hz]

/-- Witness for delay_nonneg_and_zero_bytes_no_sleep at throughput 5,
3 bytes, 2 ns elapsed, and a 0-byte chunk that took 4 ns. -/
theorem delay_nonneg_and_zero_bytes_no_sleep_witness :
    0 ≤ delaySleepNs 5 3 2 ∧
    delaySleepNs 5 0 2 = 0 ∧
    slowCopyTrace [IterEv.ok [] 4 WriteRes.success] =
      Act.write [] :: slowCopyTrace [] ∧
    slowCopyTimeNs 5 [IterEv.ok [] 4 WriteRes.success] =
      ((4 : ℕ) : ℤ) + slowCopyTimeNs 5 [] :=
  delay_nonneg_and_zero_bytes_no_sleep 5 3 2 (by norm_num) (by norm_num) 4 []

theorem writeActs_no_close (chunks : List (List ℕ × ℕ)) :
    Act.closeBoth ∉ writeActs chunks ∧
    Act.wCloseWrite ∉ writeActs chunks ∧
    Act.rCloseRead ∉ writeActs chunks := by
  simp [writeActs]

/-- Claim C3: when slowCopy reads the chunks of a list in order and then sees
a clean end of stream, its destination receives exactly the concatenation of
those chunks, as one write per chunk in read order — no reordering, loss or
duplication — and only after the last of them is the half-close propagated
via w.CloseWrite(); events after the end of stream are never consumed. -/
theorem slowCopy_writes_in_order (chunks : List (List ℕ × ℕ))
    (rest : List IterEv) :
    slowCopyTrace (okEvents chunks ++ IterEv.readEOF :: rest) =
      writeActs chunks ++ [Act.wCloseWrite] ∧
    writtenBytes (slowCopyTrace (okEvents chunks ++ IterEv.readEOF :: rest)) =
      ((chunks.map fun c => c.1).flatten).length := by
  constructor
  · rw [slowCopyTrace_okEvents_append]
    rfl
  · rw [slowCopyTrace_okEvents_append]
    show writtenBytes (writeActs chunks ++ [Act.wCloseWrite]) = _
    induction chunks with
    | nil => rfl
    | cons c cs ih =>
        simp [writeActs, writtenBytes] at *
        omega

/-- Claim C4: after any run of successful chunk transfers, a clean
end-of-stream on the read makes slowCopy perform exactly one further action,
w.CloseWrite() — the half-close of the destination's write side — and stop;
a broken-pipe (or EOF) failure of the write makes it perform exactly
r.CloseRead() — the half-close of the source's read side — and stop.  In
neither case is a full close (w.Close(); r.Close()) of either stream
performed, and the remaining events are never consumed. -/
theorem slowCopy_half_close_on_eof_and_epipe (chunks : List (List ℕ × ℕ))
    (rest : List IterEv) (d : List ℕ) (e : ℕ) :
    slowCopyTrace (okEvents chunks ++ IterEv.readEOF :: rest) =
      writeActs chunks ++ [Act.wCloseWrite] ∧
    slowCopyTrace (okEvents chunks ++
        IterEv.ok d e WriteRes.eofOrPipe :: rest) =
      writeActs chunks ++ [Act.rCloseRead] ∧
    Act.closeBoth ∉
      slowCopyTrace (okEvents chunks ++ IterEv.readEOF :: rest) ∧
    Act.closeBoth ∉
      slowCopyTrace (okEvents chunks ++
        IterEv.ok d e WriteRes.eofOrPipe :: rest) := by
  have h1 : slowCopyTrace (okEvents chunks ++ IterEv.readEOF :: rest) =
      writeActs chunks ++ [Act.wCloseWrite] := by
    rw [slowCopyTrace_okEvents_append]
    rfl
  have h2 : slowCopyTrace (okEvents chunks ++
      IterEv.ok d e WriteRes.eofOrPipe :: rest) =
      writeActs chunks ++ [Act.rCloseRead] := by
    rw [slowCopyTrace_okEvents_append]
    rfl
  refine ⟨h1, h2, ?_, ?_⟩
  · rw [h1]
    have hw := (writeActs_no_close chunks).1
    simp_all
  · rw [h2]
    have hw := (writeActs_no_close chunks).1
    simp_all

/-- Claim C5: after any run of successful chunk transfers, a read failing
with an error other than EOF/broken-pipe, or a write failing with an error
other than EOF/broken-pipe, makes slowCopy close both streams fully
(w.Close(); r.Close()) and stop. -/
theorem slowCopy_full_close_on_other_errors (chunks : List (List ℕ × ℕ))
    (rest : List IterEv) (d : List ℕ) (e : ℕ) :
    slowCopyTrace (okEvents chunks ++ IterEv.readErr :: rest) =
      writeActs chunks ++ [Act.closeBoth] ∧
    slowCopyTrace (okEvents chunks ++
        IterEv.ok d e WriteRes.otherErr :: rest) =
      writeActs chunks ++ [Act.closeBoth] := by
  constructor
  · rw [slowCopyTrace_okEvents_append]
    rfl
  · rw [slowCopyTrace_okEvents_append]
    rfl

theorem chunk_time_lower_bound (throughput s : ℕ) (ht : 0 < throughput)
    (e : ℤ) :
    (s : ℤ) * 1000000000 ≤
      (e + delaySleepNs throughput s e + 1000000) * (throughput : ℤ) := by
  have hexp : expectedDelayNs throughput s ≤ e + delaySleepNs throughput s e := by
    rw [delaySleepNs]
    split
    · omega
    · next h => omega
  have hkey : (s : ℤ) * 1000000000 ≤
      (expectedDelayNs throughput s + 1000000) * (throughput : ℤ) := by
    rw [expectedDelayNs_eq_div]
    have hdm := Nat.div_add_mod (1000 * s) throughput
    have hml := Nat.mod_lt (1000 * s) ht
    have hdmz : (1000 : ℤ) * s =
        (throughput : ℤ) * ((1000 * s) / throughput : ℕ)
          + ((1000 * s) % throughput : ℕ) := by
      exact_mod_cast hdm.symm
    have hmlz : (((1000 * s) % throughput : ℕ) : ℤ) < (throughput : ℤ) := by
      exact_mod_cast hml
    have hrz : (0 : ℤ) ≤ (((1000 * s) % throughput : ℕ) : ℤ) :=
      Int.natCast_nonneg _
    nlinarith [hdmz, hmlz, hrz]
  have hmono : (expectedDelayNs throughput s + 1000000) * (throughput : ℤ) ≤
      (e + delaySleepNs throughput s e + 1000000) * (throughput : ℤ) := by
    apply mul_le_mul_of_nonneg_right _ (Int.natCast_nonneg throughput)
    omega
  linarith

/-- Claim C1 (amended): for every run of a pump at throughput > 0, the
wall-clock time — per-chunk transfer times plus the sleeps injected by
delay — is at least writtenBytes / throughput seconds minus one millisecond
per forwarded chunk (the amount the code can lose to whole-millisecond
truncation); scaled by throughput to stay in integers. -/
theorem throughput_bound_per_chunk_slack (throughput : ℕ)
    (ht : 0 < throughput) (evs : List IterEv) :
    (writtenBytes (slowCopyTrace evs) : ℤ) * 1000000000 ≤
      (slowCopyTimeNs throughput evs
        + (numWrites (slowCopyTrace evs) : ℤ) * 1000000) * (throughput : ℤ) := by
  induction evs with
  | nil => simp [slowCopyTrace, slowCopyTimeNs, writtenBytes, numWrites]
  | cons ev rest ih =>
      cases ev with
      | readEOF =>
          simp [slowCopyTrace, slowCopyTimeNs, writtenBytes, numWrites]
      | readErr =>
          simp [slowCopyTrace, slowCopyTimeNs, writtenBytes, numWrites]
      | ok d e wres =>
          cases wres with
          | success =>
              have hc := chunk_time_lower_bound throughput d.length ht (e : ℤ)
              simp only [slowCopyTrace, slowCopyTimeNs, writtenBytes, numWrites]
              push_cast
              push_cast at ih
              nlinarith [hc, ih]
          | eofOrPipe =>
              simp only [slowCopyTrace, slowCopyTimeNs, writtenBytes, numWrites]
              push_cast
              positivity
          | otherErr =>
              simp only [slowCopyTrace, slowCopyTimeNs, writtenBytes, numWrites]
              push_cast
              positivity

/-- Witness for throughput_bound_per_chunk_slack: a single 2-byte chunk
forwarded instantly at 1000 bytes/s. -/
theorem throughput_bound_per_chunk_slack_witness :
    (writtenBytes (slowCopyTrace
        [IterEv.ok [3, 4] 0 WriteRes.success, IterEv.readEOF]) : ℤ)
      * 1000000000 ≤
      (slowCopyTimeNs 1000
          [IterEv.ok [3, 4] 0 WriteRes.success, IterEv.readEOF]
        + (numWrites (slowCopyTrace
            [IterEv.ok [3, 4] 0 WriteRes.success, IterEv.readEOF]) : ℤ)
          * 1000000) * ((1000 : ℕ) : ℤ) :=
  throughput_bound_per_chunk_slack 1000 (by norm_num)
    [IterEv.ok [3, 4] 0 WriteRes.success, IterEv.readEOF]

theorem writtenBytes_append (a b : List Act) :
    writtenBytes (a ++ b) = writtenBytes a + writtenBytes b := by
  induction a with
  | nil => simp [writtenBytes]
  | cons x xs ih =>
      cases x <;> simp [writtenBytes, ih]
      omega

theorem writtenBytes_replicate (k : ℕ) (d : List ℕ) :
    writtenBytes (List.replicate k (Act.write d)) = k * d.length := by
  induction k with
  | zero => simp [writtenBytes]
  | succ n ih =>
      simp [List.replicate_succ, writtenBytes, ih]
      ring

/-- Claim C1 as stated, formalised: for every configured throughput > 0 there
is a fixed scheduling slack, independent of the transfer, such that every
run's wall-clock time is at least writtenBytes / throughput seconds minus
that slack.  Scaled by throughput to stay in integers: time ≥ N/t − slack
becomes (time + slack) · t ≥ N · 10^9. -/
def boundedSlackThroughputBound : Prop :=
  ∀ throughput : ℕ, 0 < throughput → ∃ slackNs : ℕ,
    ∀ evs : List IterEv,
      (writtenBytes (slowCopyTrace evs) : ℤ) * 1000000000 ≤
        (slowCopyTimeNs throughput evs + (slackNs : ℤ)) * (throughput : ℤ)

/-- Claim C1 (counterexample): no fixed slack bounds the shortfall, already
at the concrete throughput 2000 bytes/s: when a transfer arrives as
single-byte chunks, each chunk's expected time ⌊1000·1/2000⌋ milliseconds is
0, so delay never sleeps and the wall-clock time stays 0 while the byte
count grows past any bound. -/
theorem slack_unbounded : ¬ boundedSlackThroughputBound := by
  intro h
  obtain ⟨slack, h⟩ := h 2000 (by norm_num)
  have hd : delaySleepNs 2000 1 0 = 0 := by
    rw [delaySleepNs, expectedDelayNs_eq_div]
    norm_num
  have h2 := h (okEvents (List.replicate (slack + 1) ([0], 0))
    ++ [IterEv.readEOF])
  rw [slowCopyTrace_okEvents_append, slowCopyTimeNs_okEvents_append] at h2
  have htr : writeActs (List.replicate (slack + 1) ([0], 0)) =
      List.replicate (slack + 1) (Act.write [0]) := by
    simp [writeActs, List.map_replicate]
  rw [htr, writtenBytes_append, writtenBytes_replicate] at h2
  have hsum : ((List.replicate (slack + 1) (([0], 0) : List ℕ × ℕ)).map
      fun c => (c.2 : ℤ) + delaySleepNs 2000 c.1.length (c.2 : ℤ)).sum = 0 := by
    rw [List.map_replicate]
    simp [hd]
  rw [hsum] at h2
  simp [slowCopyTrace, slowCopyTimeNs, writtenBytes] at h2
  omega

/-- Observable effects of one iteration of the server accept loop
(main.go lines 50-83). -/
structure ServerStep where
  returns : Bool
  logsAcceptErr : Bool
  logsDialErr : Bool
  closesInbound : Bool
  pumpsStarted : ℕ
deriving DecidableEq, Repr

/-- Go server loop body (main.go lines 50-83): listener.Accept() returns,
with acceptErr saying whether it returned an error; the shuttingDown flag is
then loaded, and if set the goroutine returns at once (main.go line 52); a
genuine accept error is logged and the loop continues (main.go lines 55-58);
otherwise the forward address is dialed exactly once, with dialErr saying
whether that failed; on dial failure the error is logged, the inbound
connection is closed and the loop continues (main.go lines 64-71); on
success the socket buffers are set and two slowCopy pumps are started
(main.go lines 73-82). -/
def serverStep (shuttingDown acceptErr dialErr : Bool) : ServerStep :=
  if shuttingDown then
    { returns := true, logsAcceptErr := false, logsDialErr := false,
      closesInbound := false, pumpsStarted := 0 }
  else if acceptErr then
    { returns := false, logsAcceptErr := true, logsDialErr := false,
      closesInbound := false, pumpsStarted := 0 }
  else if dialErr then
    { returns := false, logsAcceptErr := false, logsDialErr := true,
      closesInbound := true, pumpsStarted := 0 }
  else
    { returns := false, logsAcceptErr := false, logsDialErr := false,
      closesInbound := false, pumpsStarted := 2 }

/-- Whole accept loop over per-iteration environment inputs (value of the
shutdown flag at the check, accept error, dial error): the steps performed,
stopping after a step that returns. -/
def serverRun : List (Bool × Bool × Bool) → List ServerStep
  | [] => []
  | (sd, ae, de) :: rest =>
    let s := serverStep sd ae de
    s :: (if s.returns then [] else serverRun rest)

/-- Claim C6: when the process is not shutting down, an accepted inbound
connection whose forward dial fails is closed, the dial failure is logged,
no pump is started for it, and the accept loop continues with the remaining
iterations (the connection is abandoned without any dial retry). -/
theorem server_dial_failure_closes_inbound_continues
    (rest : List (Bool × Bool × Bool)) :
    serverStep false false true =
      { returns := false, logsAcceptErr := false, logsDialErr := true,
        closesInbound := true, pumpsStarted := 0 } ∧
    serverRun ((false, false, true) :: rest) =
      serverStep false false true :: serverRun rest := by
  constructor
  · rfl
  · simp [serverRun, serverStep]

/-- Claim C7: when the shutdown flag is set at the moment Accept returns an
error, the loop returns without logging the error; when it is not set, the
accept error is logged, nothing else happens, and the loop goes on to the
next Accept — a single failed accept never terminates the loop. -/
theorem server_accept_error_shutdown_vs_running (de : Bool)
    (rest : List (Bool × Bool × Bool)) :
    serverStep true true de =
      { returns := true, logsAcceptErr := false, logsDialErr := false,
        closesInbound := false, pumpsStarted := 0 } ∧
    serverStep false true de =
      { returns := false, logsAcceptErr := true, logsDialErr := false,
        closesInbound := false, pumpsStarted := 0 } ∧
    serverRun ((true, true, de) :: rest) = [serverStep true true de] ∧
    serverRun ((false, true, de) :: rest) =
      serverStep false true de :: serverRun rest := by
  refine ⟨rfl, rfl, ?_, ?_⟩
  · simp [serverRun, serverStep]
  · simp [serverRun, serverStep]

/-- Claim C10: when the shutdown flag is set at the moment Accept returns,
the loop terminates at once whether or not Accept succeeded: nothing is
logged, no pump is started, and — Accept having succeeded or not — the
inbound connection is neither handed to the pair manager nor closed. -/
theorem server_shutdown_drops_accepted_conn (ae de : Bool)
    (rest : List (Bool × Bool × Bool)) :
    serverStep true ae de =
      { returns := true, logsAcceptErr := false, logsDialErr := false,
        closesInbound := false, pumpsStarted := 0 } ∧
    serverRun ((true, ae, de) :: rest) = [serverStep true ae de] := by
  constructor
  · rfl
  · simp [serverRun, serverStep]

/-- Decimal value of a digit string. -/
def digitsVal (l : List Char) : ℕ :=
  l.foldl (fun acc c => acc * 10 + (c.toNat - 48)) 0

/-- Go strconv.Atoi (used at main.go line 23): an optional single + or -
sign followed by one or more ASCII decimal digits whose value fits a 64-bit
signed integer; everything else (empty string, other characters, value out
of range) is an error, modelled as none. -/
def atoi (s : String) : Option ℤ :=
  match s.toList with
  | [] => none
  | c :: cs =>
    let digits := if c = '-' ∨ c = '+' then cs else c :: cs
    if digits.isEmpty then none
    else if digits.all Char.isDigit then
      let n : ℤ := if c = '-' then -(digitsVal digits : ℤ) else (digitsVal digits : ℤ)
      if -(2 ^ 63) ≤ n ∧ n < 2 ^ 63 then some n else none
    else none

/-- Configuration carried into the server loop (main.go lines 21-23). -/
structure Config where
  listen : String
  forward : String
  throughput : ℤ
deriving DecidableEq, Repr

/-- Outcome of the argument handling in main: either the process prints the
usage text and exits with a non-zero status without starting the server
(log.Fatalf in printUsageAndExit, main.go lines 165-173), or the server is
started with the parsed configuration. -/
inductive MainOutcome
  | usageExit
  | run (cfg : Config)
deriving DecidableEq, Repr

/-- Go main argument validation (main.go lines 16-26): os.Args must hold
exactly 4 entries (program name plus 3 arguments) and the fourth must parse
as an integer via strconv.Atoi; no further check is applied to the parsed
throughput. -/
def validateArgs (args : List String) : MainOutcome :=
  if args.length = 4 then
    match atoi (args.getD 3 "") with
    | none => MainOutcome.usageExit
    | some n => MainOutcome.run ⟨args.getD 1 "", args.getD 2 "", n⟩
  else MainOutcome.usageExit

/-- Claim C9 (counterexample): the invocation with throughput argument "0"
passes validation and starts the server with throughput 0, which is not
> 0: main checks only that the argument is an integer. -/
theorem validate_accepts_zero_throughput :
    validateArgs ["slowproxy", "localhost:8080", "localhost:80", "0"] =
      MainOutcome.run ⟨"localhost:8080", "localhost:80", 0⟩ ∧
    ¬ (0 : ℤ) < (Config.mk "localhost:8080" "localhost:80" 0).throughput := by
  constructor
  · decide
  · decide

/-- Claim C9 (amended): every invocation that proceeds past argument
validation has a throughputBytesPerSecond that is an integer — possibly
zero or negative, positivity is not checked; an invocation with the wrong
argument count or a non-integer throughput argument produces usage text and
a non-zero exit without starting the server. -/
theorem validate_integer_throughput (args : List String) :
    (∀ cfg, validateArgs args = MainOutcome.run cfg →
      args.length = 4 ∧ atoi (args.getD 3 "") = some cfg.throughput) ∧
    (args.length ≠ 4 ∨ atoi (args.getD 3 "") = none →
      validateArgs args = MainOutcome.usageExit) := by
  by_cases h4 : args.length = 4
  · cases hA : atoi (args.getD 3 "") with
    | none =>
        constructor
        · intro cfg hcfg
          rw [validateArgs, if_pos h4, hA] at hcfg
          cases hcfg
        · intro _
          rw [validateArgs, if_pos h4, hA]
    | some n =>
        constructor
        · intro cfg hcfg
          rw [validateArgs, if_pos h4, hA] at hcfg
          cases hcfg
          exact ⟨h4, rfl⟩
        · intro hor
          rcases hor with h | h
          · exact absurd h4 h
          · cases h
  · constructor
    · intro cfg hcfg
      rw [validateArgs, if_neg h4] at hcfg
      cases hcfg
    · intro _
      rw [validateArgs, if_neg h4]

/-- Witness for validate_integer_throughput: the invocation with throughput
"7" passes validation with configured throughput 7, and the invocation with
throughput "x" exits with the usage text. -/
theorem validate_integer_throughput_witness :
    ((["slowproxy", "a", "b", "7"] : List String).length = 4 ∧
      atoi ((["slowproxy", "a", "b", "7"] : List String).getD 3 "") =
        some (Config.mk "a" "b" 7).throughput) ∧
    validateArgs ["slowproxy", "a", "b", "x"] = MainOutcome.usageExit :=
  ⟨(validate_integer_throughput ["slowproxy", "a", "b", "7"]).1
      (Config.mk "a" "b" 7) (by decide),
    (validate_integer_throughput ["slowproxy", "a", "b", "x"]).2
      (Or.inr (by decide))⟩

end SlowProxy
